import Mathlib

/-!
Verification of the currencyapi-rs client library core: the validated
currency-code value type, the fixed-capacity rates table, request URL
construction, and the response-decoding pipeline.  Each definition is a
shallow embedding of the corresponding Rust item; byte strings are
`List Nat`, machine counters are `Nat` reduced modulo the word size where
overflow matters, and fallible operations return `Except`/`Option`.
-/

namespace Currencyapi

/-- Mirrors Rust `u8::is_ascii_uppercase`: the byte is in `b'A'..=b'Z'`. -/
def isAsciiUppercase (c : Nat) : Bool := 65 ≤ c && c ≤ 90

/-- `CURRENCY_LEN_MIN` from `currency_impl.rs`. -/
def CURRENCY_LEN_MIN : Nat := 2

/-- `CURRENCY_LEN_MAX` from `currency_impl.rs`. -/
def CURRENCY_LEN_MAX : Nat := 5

/-- `CurrencyCode` (`currency_impl.rs`): an 8-byte `repr(C, align(8))` struct
whose value is the code in uppercase ASCII followed by zero bytes.  The
`code_head`/`code_tail`/`padding` fields are adjacent, so the struct is
modelled as the flat 8-byte buffer, which is exactly what `as_u64` compares. -/
structure CurrencyCode where
  bytes : List Nat
deriving DecidableEq, Repr

/-- Error enum of `currency_impl.rs`. -/
inductive CurrencyError where
  | TooShort : CurrencyError
  | TooLong : CurrencyError
  | InvalidCharacter : Nat → CurrencyError
deriving DecidableEq, Repr

/-- `CurrencyCode::new_unchecked` composed with `from_array_unchecked`:
copies the code bytes into a zeroed 8-byte buffer. -/
def CurrencyCode.newUnchecked (code : List Nat) : CurrencyCode :=
  ⟨code ++ List.replicate (8 - code.length) 0⟩

/-- `TryFrom<&[u8]> for CurrencyCode` (`currency_impl.rs` lines 102-112).
Note the `bad_char` computation: the Rust source combines the head scan and
the tail scan with `Option::and`, which yields `Some` only when *both* scans
find an offending byte. -/
def CurrencyCode.tryFrom (value : List Nat) : Except CurrencyError CurrencyCode :=
  let len := value.length
  if len < CURRENCY_LEN_MIN then .error .TooShort
  else if len > CURRENCY_LEN_MAX then .error .TooLong
  else
    let headBad := (value.take CURRENCY_LEN_MIN).find? (fun c => !(isAsciiUppercase c))
    let tailBad := (value.drop CURRENCY_LEN_MIN).find? (fun c => !(isAsciiUppercase c) && c != 0)
    let badChar := match headBad with
      | none => none
      | some _ => tailBad
    match badChar with
    | some c => .error (.InvalidCharacter c)
    | none => .ok (CurrencyCode.newUnchecked value)

/-- `FromStr for CurrencyCode`: defers to `TryFrom<&[u8]>` on the UTF-8 bytes. -/
def strBytes (s : String) : List Nat := s.toList.map Char.toNat

/-- `CurrencyCode::from_str`. -/
def CurrencyCode.fromStr (s : String) : Except CurrencyError CurrencyCode :=
  CurrencyCode.tryFrom (strBytes s)

/-- The `code_tail` field: bytes 2..5 of the buffer. -/
def CurrencyCode.codeTail (c : CurrencyCode) : List Nat :=
  (c.bytes.drop CURRENCY_LEN_MIN).take (CURRENCY_LEN_MAX - CURRENCY_LEN_MIN)

/-- `AsRef<[u8]> for CurrencyCode` (`currency_impl.rs` lines 119-132): the
length is `CURRENCY_LEN_MIN` plus the count of leading nonzero tail bytes. -/
def CurrencyCode.asBytes (c : CurrencyCode) : List Nat :=
  let tailLen := (c.codeTail.takeWhile (fun b => b != 0)).length
  c.bytes.take (CURRENCY_LEN_MIN + tailLen)

/-- The documented invariant of `CurrencyCode`: 8 bytes total, some length
`n` in `[2,5]` of uppercase ASCII letters followed by zero bytes only. -/
def CurrencyCode.wf (c : CurrencyCode) : Bool :=
  c.bytes.length == 8 &&
  (List.range 4).any (fun k =>
    let n := k + 2
    (c.bytes.take n).all (fun b => isAsciiUppercase b) &&
    (c.bytes.drop n).all (fun b => b == 0))

/-- The `list::USD` constant. -/
def USD : CurrencyCode := CurrencyCode.newUnchecked [85, 83, 68]

/-- The `list::EUR` constant. -/
def EUR : CurrencyCode := CurrencyCode.newUnchecked [69, 85, 82]

/-- The `list::ILS` constant. -/
def ILS : CurrencyCode := CurrencyCode.newUnchecked [73, 76, 83]

/-- `Rates<N, RATE>` (`rates.rs`): two parallel `[MaybeUninit<_>; N]` arrays
and a `len: u8` counter.  An array slot is `none` while uninitialized; the
counter is a `Nat` that every increment reduces modulo `2^8`, matching the
`u8` field. -/
structure Rates (N : Nat) (RATE : Type) where
  currency : Nat → Option CurrencyCode
  rate : Nat → Option RATE
  len : Nat

/-- `Rates::new`: both arrays uninitialized, zero count. -/
def Rates.new {N : Nat} {R : Type} : Rates N R :=
  { currency := fun _ => none, rate := fun _ => none, len := 0 }

/-- `Rates::push_unchecked` (`rates.rs` lines 67-72): writes both arrays at
index `len` and increments the `u8` counter (`self.len += 1`, which wraps at
`256` in release builds). -/
def Rates.pushUnchecked {N : Nat} {R : Type} (r : Rates N R) (c : CurrencyCode) (v : R) :
    Rates N R :=
  let i := r.len
  { currency := fun j => if j = i then some c else r.currency j
    rate := fun j => if j = i then some v else r.rate j
    len := (r.len + 1) % 256 }

/-- `Rates::push` (`rates.rs` lines 77-85): pushes when `(len as usize) < N`,
returning whether the pair was inserted.  The mutable receiver is modelled by
returning the updated table alongside the boolean. -/
def Rates.push {N : Nat} {R : Type} (r : Rates N R) (c : CurrencyCode) (v : R) :
    Rates N R × Bool :=
  if r.len < N then (r.pushUnchecked c v, true) else (r, false)

/-- `Rates::extend_capped` (`rates.rs` lines 90-95): pushes each pair in
order, returning `false` as soon as one push fails (remaining input dropped)
and `true` when the sequence is exhausted. -/
def Rates.extendCapped {N : Nat} {R : Type} (r : Rates N R) :
    List (CurrencyCode × R) → Rates N R × Bool
  | [] => (r, true)
  | (c, v) :: rest =>
    match r.push c v with
    | (r', true) => r'.extendCapped rest
    | (r', false) => (r', false)

/-- The observable contents of the table: `Rates::iter`, i.e. the
`currencies()`/`rates()` slices (indices `0..len`) zipped together.  Slots
below `len` are always initialized in reachable states; an uninitialized
slot (undefined behaviour in the source) contributes nothing here. -/
def Rates.entries {N : Nat} {R : Type} (r : Rates N R) : List (CurrencyCode × R) :=
  (List.range r.len).filterMap
    (fun i => (r.currency i).bind (fun c => (r.rate i).map (fun v => (c, v))))

/-- `Rates::get` (`rates.rs` lines 98-102): first match by linear scan in
insertion order. -/
def Rates.get {N : Nat} {R : Type} (r : Rates N R) (c : CurrencyCode) : Option R :=
  (r.entries.find? (fun p => decide (p.1 = c))).map (fun p => p.2)

/-- `Rates::convert` (`rates.rs` lines 107-112): `amount * (rate(to) / rate(from))`,
`none` when either lookup fails.  The `?` operator is the nested match. -/
def Rates.convert {N : Nat} {R : Type} [Mul R] [Div R]
    (r : Rates N R) (amount : R) (fromC toC : CurrencyCode) : Option R :=
  match r.get fromC with
  | none => none
  | some fromValue =>
    match r.get toC with
    | none => none
    | some toValue => some (amount * (toValue / fromValue))

/-- Calling `Rates::push` once per element of a list, collecting the returned
booleans; formalizes "calling push k times" in the spec's properties. -/
def Rates.pushSeq {N : Nat} {R : Type} (r : Rates N R) :
    List (CurrencyCode × R) → Rates N R × List Bool
  | [] => (r, [])
  | (c, v) :: rest =>
    let p := r.push c v
    let q := p.1.pushSeq rest
    (q.1, p.2 :: q.2)

/-! ## URL construction (`latest/url.rs`) -/

/-- The three base-currency parameter types accepted by the `latest`
`Builder`: `NoBaseCurrency`, `BaseCurrency<CurrencyCode>`, and
`BaseCurrency<Option<CurrencyCode>>` (`latest/url.rs` lines 37-57). -/
inductive BaseCurrencyParam where
  | NoBaseCurrency : BaseCurrencyParam
  | BaseCurrencyCode : CurrencyCode → BaseCurrencyParam
  | BaseCurrencyOpt : Option CurrencyCode → BaseCurrencyParam

/-- `BaseCurrencyUrlPart::write_url_part` for each impl (`latest/url.rs`
lines 37-57): returns the bytes written and the boolean result.  Note the
`BaseCurrency<Option<CurrencyCode>>` impl returns `true` in its `None` arm
while writing nothing. -/
def BaseCurrencyParam.writeUrlPart : BaseCurrencyParam → List Nat → List Nat × Bool
  | .NoBaseCurrency, _ => ([], false)
  | .BaseCurrencyCode c, pre => (pre ++ strBytes "base_currency=" ++ c.asBytes, true)
  | .BaseCurrencyOpt (some c), pre => (pre ++ strBytes "base_currency=" ++ c.asBytes, true)
  | .BaseCurrencyOpt none, _ => ([], true)

/-- The `latest::Builder` state: token, base-currency parameter, currency
selection (`latest/request.rs` lines 29-36). -/
structure Builder where
  token : String
  baseCurrency : BaseCurrencyParam
  currencies : List CurrencyCode

/-- `Builder::write_url` (`latest/url.rs` lines 7-21): endpoint, then the
base-currency part with prefix `?`, then — when the selection is non-empty —
the separator (`&` when the base part reported it wrote, else `?`),
`currencies=`, and the comma-separated codes. -/
def Builder.writeUrl (b : Builder) : List Nat :=
  let endpoint := strBytes "https://api.currencyapi.com/v3/latest"
  let part := b.baseCurrency.writeUrlPart (strBytes "?")
  let sep := if part.2 then strBytes "&" else strBytes "?"
  endpoint ++ part.1 ++
    match b.currencies with
    | [] => []
    | head :: rest =>
      sep ++ strBytes "currencies=" ++ head.asBytes ++
        (rest.map (fun c => strBytes "," ++ c.asBytes)).flatten

/-! ## Response decoding (`latest/request.rs::Request::send`) -/

/-- The crate `Error` enum (`error.rs`).  `HttpError` carries a
`reqwest::Error` in the source; the payload is outside the model. -/
inductive Error where
  | RateLimitError : Error
  | HttpError : Error
  | ResponseParseError : Error
  | RateLimitParseError : Error
deriving DecidableEq, Repr

/-- Modelled from the spec: `Metadata` (spec section 3) — the last-updated
timestamp plus quota data returned by a successful decode.  The struct is
referenced by `latest/request.rs` (lines 155-158) but its definition is
missing from the snapshot; its two fields are fixed by that construction
site and by the spec. -/
structure Metadata (DT RL : Type) where
  lastUpdatedAt : DT
  rateLimit : RL

/-- A JSON value, as far as `Request::send` inspects one: strings, objects,
and anything else kept as its raw source text (serde's `RawValue`). -/
inductive Json where
  | str : String → Json
  | raw : String → Json
  | obj : List (String × Json) → Json

/-- Field lookup in a JSON object; `none` on non-objects or missing keys. -/
def Json.getField : Json → String → Option Json
  | .obj fields, k => (fields.find? (fun p => p.1 == k)).map (fun p => p.2)
  | _, _ => none

/-- `RawValue::get`: the raw source text of the value.  Values other than
strings are modelled through the `raw` constructor, so the `obj` arm is
unreachable for data-entry values in this model. -/
def Json.rawText : Json → String
  | .str s => "\x22" ++ s ++ "\x22"
  | .raw t => t
  | .obj _ => ""

/-- An HTTP response as `send` consumes it: status code, headers, and the
body (`none` when the body is not valid JSON, in which case
`serde_json::from_slice` fails). -/
structure HttpResponse where
  status : Nat
  headers : List (String × String)
  body : Option Json

/-- The serde `Payload` struct of `latest/request.rs` (lines 128-143):
`meta.last_updated_at` must be a JSON string, `data` must be an object whose
every entry is an object with a `value` field, kept as raw text. -/
structure Payload where
  lastUpdatedAt : String
  data : List (String × String)

/-- Deserialization of `Payload` (derive semantics: unknown fields ignored,
missing or mis-typed fields are an error).  `HashMap` iteration order is
modelled as the object's field order. -/
def parsePayload (j : Json) : Option Payload := do
  let meta ← j.getField "meta"
  let lua ← meta.getField "last_updated_at"
  let luaStr ← match lua with | .str s => some s | _ => none
  let data ← j.getField "data"
  match data with
  | .obj fields => do
    let entries ← fields.mapM (fun p => (p.2.getField "value").map (fun rv => (p.1, rv.rawText)))
    pure ⟨luaStr, entries⟩
  | _ => none

/-- Outcome of `Request::send`: a value, a returned `Error`, or a Rust
panic (`unwrap` on a failed parse, or the `todo!()` placeholders). -/
inductive SendResult (α : Type) where
  | ok : α → SendResult α
  | err : Error → SendResult α
  | panics : SendResult α

/-- The fused loop of `latest/request.rs` lines 151-154:
`rates.extend_capped(data.iter().map(|(c, e)| (c.parse().unwrap(), RATE::parse_scientific(e.value.get()).unwrap_or_else(|_| todo!()))))`.
The `map` is lazy, so each entry is parsed only when `extend_capped` pulls
it: a parse failure panics, and once the table is full remaining entries are
never parsed. -/
def Rates.extendCappedParse {N : Nat} {R : Type} (parseRate : String → Option R)
    (r : Rates N R) : List (String × String) → Rates N R × Option Bool
  | [] => (r, some true)
  | (k, rv) :: rest =>
    match CurrencyCode.fromStr k with
    | .error _ => (r, none)
    | .ok c =>
      match parseRate rv with
      | none => (r, none)
      | some v =>
        match r.push c v with
        | (r', true) => r'.extendCappedParse parseRate rest
        | (r', false) => (r', some false)

/-- `Request::send` (`latest/request.rs` lines 117-160), with the
trait-polymorphic collaborators as function parameters: `parseDT` is
`DateTime::from_str`, `parseRL` is `RateLimit::try_from(&response)` over the
quota headers (the `RateLimitData` impls), and `parseRate` is
`RATE::parse_scientific`.  Order of operations as in the source: the 429
check, then `error_for_status` (4xx/5xx), then the rate-limit headers, then
the body.  A `serde_json::from_slice(..).unwrap()` failure, a
`last_updated_at` parse failure (`todo!()`), and entry parse failures all
panic; the boolean result of `extend_capped` is discarded.  The `&mut Rates`
argument is modelled by returning the updated table. -/
def Request.send {DT RL R : Type} {N : Nat}
    (parseDT : String → Option DT)
    (parseRL : List (String × String) → Option RL)
    (parseRate : String → Option R)
    (resp : HttpResponse) (rates : Rates N R) :
    SendResult (Metadata DT RL) × Rates N R :=
  if resp.status == 429 then (.err .RateLimitError, rates)
  else if 400 ≤ resp.status then (.err .HttpError, rates)
  else
    match parseRL resp.headers with
    | none => (.err .RateLimitParseError, rates)
    | some rl =>
      match resp.body.bind parsePayload with
      | none => (.panics, rates)
      | some payload =>
        match parseDT payload.lastUpdatedAt with
        | none => (.panics, rates)
        | some dt =>
          match rates.extendCappedParse parseRate payload.data with
          | (rates', some _) => (.ok ⟨dt, rl⟩, rates')
          | (rates', none) => (.panics, rates')

/-! ## Example values used by witnesses and counterexamples -/

/-- Example table (capacity 3, rational rates): USD ↦ 2, EUR ↦ 3. -/
def exTable : Rates 3 ℚ := (((Rates.new : Rates 3 ℚ).push USD 2).1.push EUR 3).1

/-- Example table holding a zero rate for USD. -/
def exTableZero : Rates 3 ℚ := ((Rates.new : Rates 3 ℚ).push USD 0).1

/-- A capacity-256 table after 255 successful pushes: its `u8` counter
stands at 255. -/
def r255 : Rates 256 ℚ :=
  ((Rates.new : Rates 256 ℚ).pushSeq (List.replicate 255 (USD, (1 : ℚ)))).1

/-! ## Helper lemmas -/

/-- `takeWhile` of a `0`-replicate under the nonzero predicate is empty. -/
theorem takeWhile_replicate_zero (m : Nat) :
    (List.replicate m 0).takeWhile (fun b => b != 0) = [] := by
  cases m with
  | zero => rfl
  | succ k => simp [List.replicate_succ, List.takeWhile_cons]

/-- A successful `Rates::push` (count below capacity, capacity within the
`u8` range): returns `true`, increments the count, appends the pair. -/
theorem Rates.push_lt {N : Nat} {R : Type} (hN : N ≤ 255) (r : Rates N R)
    (c : CurrencyCode) (v : R) (h : r.len < N) :
    (r.push c v).2 = true ∧ (r.push c v).1.len = r.len + 1 ∧
      (r.push c v).1.entries = r.entries ++ [(c, v)] := by
  have hmod : (r.len + 1) % 256 = r.len + 1 := Nat.mod_eq_of_lt (by omega)
  refine ⟨by simp [Rates.push, h], by simp [Rates.push, h, Rates.pushUnchecked, hmod], ?_⟩
  simp only [Rates.push, h, if_pos]
  unfold Rates.entries Rates.pushUnchecked
  simp only [hmod]
  rw [List.range_succ, List.filterMap_append]
  congr 1
  · apply List.filterMap_congr
    intro i hi
    have hne : i ≠ r.len := by have := List.mem_range.mp hi; omega
    simp [hne]
  · simp

/-- A failed `Rates::push` (count at or above capacity) leaves the table
unchanged and returns `false`. -/
theorem Rates.push_ge {N : Nat} {R : Type} (r : Rates N R)
    (c : CurrencyCode) (v : R) (h : ¬ r.len < N) :
    r.push c v = (r, false) := by
  simp [Rates.push, h]

/-- Behaviour of `k` consecutive `Rates::push` calls when the capacity fits
in the `u8` counter: final count and the exact boolean results. -/
theorem Rates.pushSeq_spec {N : Nat} {R : Type} (hN : N ≤ 255)
    (l : List (CurrencyCode × R)) :
    ∀ (r : Rates N R), r.len ≤ N →
      ((r.pushSeq l).1).len = min (r.len + l.length) N ∧
      (r.pushSeq l).2 =
        List.replicate (min (N - r.len) l.length) true ++
          List.replicate (l.length - (N - r.len)) false := by
  induction l with
  | nil =>
    intro r hr
    constructor
    · simp [Rates.pushSeq]; omega
    · simp [Rates.pushSeq]
  | cons a t ih =>
    intro r hr
    obtain ⟨c, v⟩ := a
    by_cases h : r.len < N
    · have hp := Rates.push_lt hN r c v h
      have hlen' : ((r.push c v).1).len = r.len + 1 := hp.2.1
      have iht := ih ((r.push c v).1) (by omega)
      obtain ⟨k, hk⟩ : ∃ k, N - r.len = k + 1 := ⟨N - r.len - 1, by omega⟩
      have hk' : N - (r.len + 1) = k := by omega
      constructor
      · simp only [Rates.pushSeq, iht.1, hlen', List.length_cons]
        omega
      · simp only [Rates.pushSeq, iht.2, hlen', hp.1, List.length_cons, hk, hk']
        rw [Nat.succ_min_succ, Nat.succ_sub_succ, List.replicate_succ, List.cons_append]
    · have hpg := Rates.push_ge r c v h
      have iht := ih r hr
      have hrN : r.len = N := by omega
      constructor
      · simp only [Rates.pushSeq, hpg, iht.1, List.length_cons]
        omega
      · simp only [Rates.pushSeq, hpg, iht.2, List.length_cons, hrN, Nat.sub_self]
        simp [List.replicate_succ]

/-- Behaviour of `Rates::extend_capped` when the capacity fits in the `u8`
counter: result boolean, final count, and final contents. -/
theorem Rates.extendCapped_spec {N : Nat} {R : Type} (hN : N ≤ 255)
    (l : List (CurrencyCode × R)) :
    ∀ (r : Rates N R), r.len ≤ N →
      ((r.extendCapped l).2 = true ↔ r.len + l.length ≤ N) ∧
      ((r.extendCapped l).1).len = min (r.len + l.length) N ∧
      ((r.extendCapped l).1).entries = r.entries ++ l.take (N - r.len) := by
  induction l with
  | nil =>
    intro r hr
    refine ⟨by simp [Rates.extendCapped]; omega, by simp [Rates.extendCapped]; omega,
      by simp [Rates.extendCapped]⟩
  | cons a t ih =>
    intro r hr
    obtain ⟨c, v⟩ := a
    by_cases h : r.len < N
    · rcases hpc : r.push c v with ⟨r', b⟩
      have hp := Rates.push_lt hN r c v h
      rw [hpc] at hp
      have hb : b = true := hp.1
      subst hb
      have hlen' : r'.len = r.len + 1 := hp.2.1
      have hent' : r'.entries = r.entries ++ [(c, v)] := hp.2.2
      have iht := ih r' (by omega)
      have hext : r.extendCapped ((c, v) :: t) = r'.extendCapped t := by
        simp [Rates.extendCapped, hpc]
      obtain ⟨k, hk⟩ : ∃ k, N - r.len = k + 1 := ⟨N - r.len - 1, by omega⟩
      have hk' : N - r'.len = k := by omega
      refine ⟨?_, ?_, ?_⟩
      · rw [hext]
        refine iht.1.trans ?_
        simp only [List.length_cons]
        omega
      · rw [hext, iht.2.1]
        simp only [hlen', List.length_cons]
        omega
      · rw [hext, iht.2.2, hent', hk, hk', List.take_succ_cons, List.append_assoc,
          List.singleton_append]
    · have hpg := Rates.push_ge r c v h
      have hrN : r.len = N := by omega
      have hext : r.extendCapped ((c, v) :: t) = (r, false) := by
        simp [Rates.extendCapped, hpg]
      refine ⟨?_, ?_, ?_⟩
      · rw [hext]
        simp only [List.length_cons]
        constructor
        · intro hfalse; cases hfalse
        · omega
      · rw [hext]
        simp only [List.length_cons]
        omega
      · rw [hext, hrN, Nat.sub_self, List.take_zero, List.append_nil]

/-! ## Claim theorems -/

/-- Claim C1.  The claim states that `CurrencyCode` parsing rejects any
in-range byte that is not an uppercase ASCII letter with
`InvalidCharacter`.  The code does not: its `bad_char` computation joins the
head scan and the tail scan with `Option::and`, so a bad byte is reported
only when *both* segments contain one.  `b"AB!"` (bad tail byte only) and
`[0, 0]` (bad head bytes only — which then seeds `NonZeroU8` with zero,
undefined behaviour) are accepted, and the accepted value for `b"AB!"`
violates the documented code invariant. -/
theorem C1_invalid_character_accepted :
    CurrencyCode.tryFrom [65, 66, 33] = .ok (CurrencyCode.newUnchecked [65, 66, 33]) ∧
    CurrencyCode.wf (CurrencyCode.newUnchecked [65, 66, 33]) = false ∧
    CurrencyCode.tryFrom [0, 0] = .ok (CurrencyCode.newUnchecked [0, 0]) :=
  ⟨rfl, rfl, rfl⟩

/-- Claim C2.  The claim states that a missing body field, a malformed
timestamp, an invalid data key and an unparseable value each make the decode
return `ResponseParseError`.  In `latest/request.rs::send` every one of
these panics instead (`serde unwrap`, `todo!()` on the timestamp, `unwrap`
on the key parse, `todo!()` on the value parse).  Four concrete responses,
one per failure mode, all yielding the panic outcome. -/
theorem C2_parse_failures_panic :
    Request.send (fun s => some s) (fun _ => some ()) (fun _ => some (1 : ℚ))
      ⟨200, [], some (Json.obj [])⟩ (Rates.new : Rates 2 ℚ) = (.panics, Rates.new) ∧
    Request.send (fun s => if s = "2024-01-01" then some s else none)
      (fun _ => some ()) (fun _ => some (1 : ℚ))
      ⟨200, [], some (Json.obj [("meta", Json.obj [("last_updated_at", Json.str "garbage")]),
        ("data", Json.obj [])])⟩ (Rates.new : Rates 2 ℚ) = (.panics, Rates.new) ∧
    Request.send (fun s => some s) (fun _ => some ()) (fun _ => some (1 : ℚ))
      ⟨200, [], some (Json.obj [("meta", Json.obj [("last_updated_at", Json.str "t")]),
        ("data", Json.obj [("usd", Json.obj [("value", Json.raw "1.0")])])])⟩
      (Rates.new : Rates 2 ℚ) = (.panics, Rates.new) ∧
    Request.send (fun s => some s) (fun _ => some ())
      (fun s => if s = "1.0" then some (1 : ℚ) else none)
      ⟨200, [], some (Json.obj [("meta", Json.obj [("last_updated_at", Json.str "t")]),
        ("data", Json.obj [("USD", Json.obj [("value", Json.raw "oops")])])])⟩
      (Rates.new : Rates 2 ℚ) = (.panics, Rates.new) :=
  ⟨rfl, rfl, rfl, rfl⟩

/-- Claim C3.  The claim states that with base currency absent and a
non-empty selection the built URL ends in `?currencies=...`.  With the
`BaseCurrency<Option<CurrencyCode>>` representation of "absent"
(`latest/url.rs` lines 50-57) the `None` arm returns `Ok(true)` while
writing nothing, so the separator becomes `&` and the URL contains no `?`
at all; the `NoBaseCurrency` representation produces the claimed URL. -/
theorem C3_absent_base_currency_ampersand :
    (Builder.mk "T" (.BaseCurrencyOpt none) [USD, EUR]).writeUrl =
      strBytes "https://api.currencyapi.com/v3/latest&currencies=USD,EUR" ∧
    (Builder.mk "T" (.BaseCurrencyOpt none) [USD, EUR]).writeUrl ≠
      strBytes "https://api.currencyapi.com/v3/latest?currencies=USD,EUR" ∧
    (Builder.mk "T" .NoBaseCurrency [USD, EUR]).writeUrl =
      strBytes "https://api.currencyapi.com/v3/latest?currencies=USD,EUR" :=
  ⟨by decide, by decide, by decide⟩

/-- Claim C4 (amended).  `extend_capped` pushes pairs in order, returns
`true` exactly when the whole sequence fits, drops the remaining input when
capacity is reached, keeps the entries inserted so far, and yields the count
`min (previous count + sequence length) N` — for capacities `N ≤ 255` (the
count is a `u8`) and table states satisfying the `count ≤ N` invariant. -/
theorem C4_extend_capped_correct {N : Nat} {R : Type} (hN : N ≤ 255)
    (r : Rates N R) (hr : r.len ≤ N) (l : List (CurrencyCode × R)) :
    ((r.extendCapped l).2 = true ↔ r.len + l.length ≤ N) ∧
    ((r.extendCapped l).1).len = min (r.len + l.length) N ∧
    ((r.extendCapped l).1).entries = r.entries ++ l.take (N - r.len) :=
  Rates.extendCapped_spec hN l r hr

/-- Claim C4, witness: the spec's own example — three entries bulk-inserted
into a capacity-2 table leave exactly 2 entries and return `false`. -/
theorem C4_extend_capped_correct_witness :
    ¬ (((Rates.new : Rates 2 ℚ).extendCapped [(USD, 1), (EUR, 2), (ILS, 3)]).2 = true) ∧
    (((Rates.new : Rates 2 ℚ).extendCapped [(USD, 1), (EUR, 2), (ILS, 3)]).1).len = 2 := by
  have h := C4_extend_capped_correct (by decide) (Rates.new : Rates 2 ℚ) (by decide)
    [(USD, 1), (EUR, 2), (ILS, 3)]
  exact ⟨fun hc => by have := h.1.mp hc; simp at this, by rw [h.2.1]; decide⟩

set_option maxRecDepth 8192 in
/-- Claim C4, counterexample to the unrestricted claim: with capacity
`N = 256` the `u8` counter wraps, so inserting 257 pairs into an empty table
reports `true` ("everything inserted") yet leaves a count of 1, not
`min (0 + 257) 256 = 256`. -/
theorem C4_overflow_counterexample :
    ((Rates.new : Rates 256 ℚ).extendCapped (List.replicate 257 (USD, (1 : ℚ)))).2 = true ∧
    ((Rates.new : Rates 256 ℚ).extendCapped (List.replicate 257 (USD, (1 : ℚ)))).1.len = 1 :=
  ⟨rfl, rfl⟩

/-- Claim C5 (amended).  For capacities `N ≤ 255` (the count is a `u8`):
`push` appends and returns `true` exactly when the count is below `N`,
otherwise returns `false` leaving the table unchanged; `N + 1` pushes on an
empty table return `true` exactly `N` times and then `false`; and the count
never exceeds `N`. -/
theorem C5_push_correct {N : Nat} {R : Type} (hN : N ≤ 255) :
    (∀ (r : Rates N R) (c : CurrencyCode) (v : R), r.len < N →
      (r.push c v).2 = true ∧ (r.push c v).1.len = r.len + 1 ∧
        (r.push c v).1.entries = r.entries ++ [(c, v)]) ∧
    (∀ (r : Rates N R) (c : CurrencyCode) (v : R), ¬ r.len < N →
      r.push c v = (r, false)) ∧
    (∀ l : List (CurrencyCode × R), l.length = N + 1 →
      ((Rates.new : Rates N R).pushSeq l).2 = List.replicate N true ++ [false]) ∧
    (∀ (r : Rates N R) (l : List (CurrencyCode × R)), r.len ≤ N →
      ((r.pushSeq l).1).len ≤ N) := by
  refine ⟨fun r c v h => Rates.push_lt hN r c v h,
    fun r c v h => Rates.push_ge r c v h, ?_, ?_⟩
  · intro l hl
    have h := (Rates.pushSeq_spec hN l (Rates.new : Rates N R) (by simp [Rates.new])).2
    rw [h]
    simp only [Rates.new, hl, Nat.sub_zero]
    rw [show min N (N + 1) = N by omega, show N + 1 - N = 1 by omega]
    rfl
  · intro r l hr
    have h := (Rates.pushSeq_spec hN l r hr).1
    omega

/-- Claim C5, witness: a capacity-2 table pushed 3 times returns
`[true, true, false]`. -/
theorem C5_push_correct_witness :
    ((Rates.new : Rates 2 ℚ).pushSeq [(USD, 1), (EUR, 2), (ILS, 3)]).2 =
      List.replicate 2 true ++ [false] :=
  (C5_push_correct (by decide)).2.2.1 [(USD, 1), (EUR, 2), (ILS, 3)] rfl

set_option maxRecDepth 8192 in
/-- Claim C5, counterexample to the unrestricted claim: with capacity
`N = 256` the 257th push on an initially empty table still returns `true`
(the `u8` counter wrapped to 0 after the 256th), so push does not return
`true` exactly `N` times and `false` thereafter. -/
theorem C5_overflow_counterexample :
    ((Rates.new : Rates 256 ℚ).pushSeq (List.replicate 257 (USD, (1 : ℚ)))).2 =
      List.replicate 257 true ∧
    ((Rates.new : Rates 256 ℚ).pushSeq (List.replicate 257 (USD, (1 : ℚ)))).1.len = 1 :=
  ⟨rfl, rfl⟩

/-- Claim C6.  `convert(amount, from, to)` returns
`some (amount * (rate(to) / rate(from)))` — rates looked up by `get`, the
first match in insertion order — when both codes are present, and `none`
exactly when at least one is absent. -/
theorem C6_convert_formula {N : Nat} {R : Type} [Mul R] [Div R]
    (r : Rates N R) (amount : R) (fromC toC : CurrencyCode) :
    (∀ fv tv, r.get fromC = some fv → r.get toC = some tv →
      r.convert amount fromC toC = some (amount * (tv / fv))) ∧
    (r.convert amount fromC toC = none ↔ r.get fromC = none ∨ r.get toC = none) := by
  constructor
  · intro fv tv hf ht
    simp [Rates.convert, hf, ht]
  · cases hf : r.get fromC <;> cases ht : r.get toC <;> simp [Rates.convert, hf, ht]

/-- Claim C6, witness: in the USD ↦ 2, EUR ↦ 3 table,
`convert 5 USD EUR = 5 * (3 / 2)`. -/
theorem C6_convert_formula_witness :
    exTable.convert 5 USD EUR = some (5 * ((3 : ℚ) / 2)) :=
  (C6_convert_formula exTable 5 USD EUR).1 2 3 (by decide) (by decide)

/-- Claim C7 (amended).  `convert(amount, X, X)` evaluates
`amount * (rate(X) / rate(X))`; under exact (division-ring) rate arithmetic
this is `amount` whenever the stored rate is nonzero — not "regardless of
the stored rate value". -/
theorem C7_convert_identity {N : Nat} {R : Type} [DivisionRing R]
    (r : Rates N R) (amount : R) (X : CurrencyCode) (v : R)
    (hget : r.get X = some v) (hv : v ≠ 0) :
    r.convert amount X X = some amount := by
  simp [Rates.convert, hget, div_self hv]

/-- Claim C7, witness: USD is stored with rate 2, and
`convert 5 USD USD = 5`. -/
theorem C7_convert_identity_witness : exTable.convert 5 USD USD = some 5 :=
  C7_convert_identity exTable 5 USD 2 (by decide) (by decide)

/-- Claim C7, counterexample to the claim as stated: with a stored rate of
0 for USD, `convert 1 USD USD` computes `1 * (0 / 0)`, which is not `1`
(here over `ℚ` it is 0; over IEEE floats it is NaN; never the amount). -/
theorem C7_zero_rate_counterexample :
    exTableZero.get USD = some 0 ∧
    exTableZero.convert 1 USD USD = some 0 ∧
    exTableZero.convert 1 USD USD ≠ some 1 := by
  have hg : exTableZero.get USD = some 0 := by decide
  have hc : exTableZero.convert 1 USD USD = some 0 := by
    simp [Rates.convert, hg]
  exact ⟨hg, hc, by rw [hc]; simp⟩

/-- Claim C8.  For every input of 2 to 5 uppercase ASCII letters, parsing
succeeds and converting the result back to bytes (`AsRef<[u8]>`, which
recovers the length by scanning the zero-padded tail) yields exactly the
original input. -/
theorem C8_parse_roundtrip (v : List Nat) (h2 : 2 ≤ v.length) (h5 : v.length ≤ 5)
    (hup : ∀ b ∈ v, isAsciiUppercase b = true) :
    CurrencyCode.tryFrom v = .ok (CurrencyCode.newUnchecked v) ∧
    (CurrencyCode.newUnchecked v).asBytes = v := by
  constructor
  · have hna : ¬ v.length < CURRENCY_LEN_MIN := by
      simp only [CURRENCY_LEN_MIN]; omega
    have hnb : ¬ v.length > CURRENCY_LEN_MAX := by
      simp only [CURRENCY_LEN_MAX]; omega
    have hfind : (v.take CURRENCY_LEN_MIN).find? (fun c => !(isAsciiUppercase c)) = none := by
      apply List.find?_eq_none.mpr
      intro x hx
      simp [hup x (List.take_subset _ _ hx)]
    simp [CurrencyCode.tryFrom, hna, hnb, hfind]
  · have hz : ∀ b ∈ v.drop 2, (b != 0) = true := by
      intro b hb
      have hu := hup b (List.drop_subset _ _ hb)
      simp only [isAsciiUppercase, Bool.and_eq_true, decide_eq_true_eq] at hu
      simp only [bne_iff_ne, ne_eq]
      omega
    have hdrop : (v ++ List.replicate (8 - v.length) 0).drop 2
        = v.drop 2 ++ List.replicate (8 - v.length) 0 := by
      rw [List.drop_append_eq_append_drop, show 2 - v.length = 0 by omega, List.drop_zero]
    have htake3 : (v.drop 2 ++ List.replicate (8 - v.length) 0).take 3
        = v.drop 2 ++ List.replicate (min (3 - (v.length - 2)) (8 - v.length)) 0 := by
      rw [List.take_append_eq_append_take,
        List.take_of_length_le (by rw [List.length_drop]; omega),
        List.length_drop, List.take_replicate]
    have htw : (v.drop 2 ++
          List.replicate (min (3 - (v.length - 2)) (8 - v.length)) 0).takeWhile
          (fun b => b != 0) = v.drop 2 := by
      rw [List.takeWhile_append_of_pos hz, takeWhile_replicate_zero, List.append_nil]
    have hfin : (v ++ List.replicate (8 - v.length) 0).take v.length = v := by
      rw [List.take_append_eq_append_take, List.take_length, Nat.sub_self, List.take_zero,
        List.append_nil]
    unfold CurrencyCode.asBytes CurrencyCode.codeTail CurrencyCode.newUnchecked
    simp only [CURRENCY_LEN_MIN, CURRENCY_LEN_MAX]
    rw [show (5 : Nat) - 2 = 3 from rfl, hdrop, htake3, htw, List.length_drop,
      show 2 + (v.length - 2) = v.length by omega, hfin]

/-- Claim C8, witness: the bytes of `"USD"` round-trip. -/
theorem C8_parse_roundtrip_witness :
    CurrencyCode.tryFrom [85, 83, 68] = .ok (CurrencyCode.newUnchecked [85, 83, 68]) ∧
    (CurrencyCode.newUnchecked [85, 83, 68]).asBytes = [85, 83, 68] :=
  C8_parse_roundtrip [85, 83, 68] (by decide) (by decide) (by decide)

/-- Claim C9.  A response with HTTP status 429 makes `send` return
`RateLimitError` regardless of headers and body, with the output table
returned unchanged (no partial decoding). -/
theorem C9_rate_limit_429 {DT RL R : Type} {N : Nat}
    (parseDT : String → Option DT) (parseRL : List (String × String) → Option RL)
    (parseRate : String → Option R) (resp : HttpResponse) (rates : Rates N R)
    (h : resp.status = 429) :
    Request.send parseDT parseRL parseRate resp rates = (.err .RateLimitError, rates) := by
  simp [Request.send, h]

/-- Claim C9, witness: a concrete 429 response with a body that would
otherwise decode. -/
theorem C9_rate_limit_429_witness :
    Request.send (fun s => some s) (fun _ => some ()) (fun _ => some (1 : ℚ))
      ⟨429, [("X-RateLimit-Limit-Quota-Minute", "10")],
        some (Json.obj [("meta", Json.obj [("last_updated_at", Json.str "t")]),
          ("data", Json.obj [])])⟩
      (Rates.new : Rates 2 ℚ) = (.err .RateLimitError, Rates.new) :=
  C9_rate_limit_429 _ _ _ _ _ rfl

/-- Claim C10.  The count is an 8-bit counter: for `N ≤ 255` any push
sequence keeps the count at most `N`, while for `N ≥ 256` the 256th
successful push (counter at 255) returns `true` and wraps the counter to 0
instead of returning `false`. -/
theorem C10_len_u8_overflow :
    (∀ (R : Type) (N : Nat), N ≤ 255 → ∀ (r : Rates N R) (l : List (CurrencyCode × R)),
      r.len ≤ N → ((r.pushSeq l).1).len ≤ N) ∧
    (∀ (R : Type) (N : Nat), 256 ≤ N → ∀ (r : Rates N R) (c : CurrencyCode) (v : R),
      r.len = 255 → (r.push c v).2 = true ∧ (r.push c v).1.len = 0) := by
  constructor
  · intro R N hN r l hr
    have h := (Rates.pushSeq_spec hN l r hr).1
    omega
  · intro R N hN r c v hlen
    have h : r.len < N := by omega
    refine ⟨by simp [Rates.push, h], ?_⟩
    have hpc : r.push c v = (r.pushUnchecked c v, true) := by simp [Rates.push, h]
    rw [hpc]
    simp only [Rates.pushUnchecked]
    omega

set_option maxRecDepth 8192 in
/-- Claim C10, witness: a capacity-2 push sequence stays within capacity,
and the capacity-256 table `r255` (counter at 255) accepts a 256th push that
wraps its counter to 0. -/
theorem C10_len_u8_overflow_witness :
    (((Rates.new : Rates 2 ℚ).pushSeq [(USD, 1), (EUR, 2), (ILS, 3)]).1).len ≤ 2 ∧
    ((r255.push USD 1).2 = true ∧ (r255.push USD 1).1.len = 0) :=
  ⟨C10_len_u8_overflow.1 ℚ 2 (by decide) Rates.new [(USD, 1), (EUR, 2), (ILS, 3)] (by decide),
   C10_len_u8_overflow.2 ℚ 256 (by decide) r255 USD 1 (by rfl)⟩

end Currencyapi
